import Mathlib

/-!
Verification of the Talent_Matching generation-and-coherence engine.

Shallow embedding of the two source files:
  - src/jobs/generate_jobs.py   (rule tables, weighted sampler, requirement
    allocator, record generator, dataset builder)
  - src/src/validate_jobs.py    (cross-field validator)

Modelling conventions:
  - Python floats are modelled as rationals.  Random draws made by the code
    are passed in as explicit oracle arguments: random.random() becomes a
    rational argument u, randint(a, b) becomes a + draw % (b - a + 1) for an
    arbitrary natural draw, random.choice(l) becomes l[i % len l],
    random.sample(pool, k) becomes selection of pool elements by an oracle
    index list.
  - A Python dict is an association list in insertion order; the update
    reqs[key] = reqs.get(key, 0) + alloc is insertAdd below.
  - date.today() is an integer day number supplied by the oracle; dates are
    day numbers.  int(30.4 * months) is modelled exactly as
    (152 * months) / 5 with natural division, since 30.4 = 152 / 5 (for all
    month counts reachable from the settings, IEEE evaluation of
    int(30.4 * months) agrees with this floor).
  - A function that can raise returns Option; none models the raise.
-/

namespace TalentMatching

/-! ## Rule tables (hard-coded in src/jobs/generate_jobs.py) -/

def SERVICE_LINE_TO_ROLES : List (String × List String) := [
  ("Application Development & Maintenance",
    ["Software Engineer", "Backend Engineer", "Frontend Engineer", "Full-Stack Developer"]),
  ("Data Engineering & Analytics",
    ["Data Engineer", "Business Analyst", "QA/Test Engineer"]),
  ("AI/ML & MLOps",
    ["Data Scientist", "ML Engineer", "Data Engineer"]),
  ("Cloud Migration & Modernization",
    ["Cloud Engineer", "DevOps/SRE Engineer", "Solutions/Technical Architect"]),
  ("DevOps & SRE",
    ["DevOps/SRE Engineer", "Cloud Engineer"]),
  ("Cybersecurity",
    ["Cybersecurity Analyst"]),
  ("ERP & SAP",
    ["ERP/SAP Consultant", "Solutions/Technical Architect"]),
  ("Salesforce & ServiceNow",
    ["Salesforce/ServiceNow Developer", "Solutions/Technical Architect"]),
  ("Quality Engineering & Testing",
    ["QA/Test Engineer", "Business Analyst"]),
  ("Consulting & Business Analysis",
    ["Business Analyst", "Project Manager"])]

def SERVICE_LINE_TO_SKILL_CATS : List (String × List String) := [
  ("Application Development & Maintenance", ["Programming", "Web_Mobile"]),
  ("Data Engineering & Analytics", ["Data_Engineering", "BI_Analytics", "Integration_ETL", "Programming"]),
  ("AI/ML & MLOps", ["AI_ML", "Data_Engineering", "Programming"]),
  ("Cloud Migration & Modernization", ["Cloud_Infrastructure", "DevOps_SRE", "Programming"]),
  ("DevOps & SRE", ["DevOps_SRE", "Cloud_Infrastructure"]),
  ("Cybersecurity", ["Cybersecurity", "Cloud_Infrastructure"]),
  ("ERP & SAP", ["ERP_Platforms", "Integration_ETL"]),
  ("Salesforce & ServiceNow", ["ERP_Platforms", "Integration_ETL", "Programming"]),
  ("Quality Engineering & Testing", ["Testing_QA", "Programming"]),
  ("Consulting & Business Analysis", ["BI_Analytics", "Data_Engineering"])]

def LEVEL_WEIGHTS : List (String × ℚ) := [
  ("PAT", 5/100), ("PA", 20/100), ("Associate", 35/100), ("SrAssociate", 25/100),
  ("Manager", 10/100), ("SrManager", 4/100), ("Arch/AD", 1/100), ("Director+", 0)]

def levelNames : List String := LEVEL_WEIGHTS.map Prod.fst

/-! ## Weighted sampler: the source function named with a leading underscore,
    def weighted_choice(weights_dict).  The cumulative scan over the items
    of the dict; u models random.random(), so the draw point is
    r = u * sum of weights.  The source returns items[-1][0] when the loop
    finishes; on an empty dict that indexing raises, modelled by none. -/

def wcScan : List (String × ℚ) → ℚ → ℚ → Option String
  | [], _, _ => none
  | (k, w) :: rest, upto, r => if upto + w ≥ r then some k else wcScan rest (upto + w) r

def weighted_choice (items : List (String × ℚ)) (u : ℚ) : Option String :=
  match wcScan items 0 (u * (items.map Prod.snd).sum) with
  | some k => some k
  | none => (items.getLast?).map Prod.fst

/-- The generator calls the sampler on nonempty dicts where it always
    returns a key; getD turns the Option into that key. -/
def weightedChoiceD (items : List (String × ℚ)) (u : ℚ) : String :=
  (weighted_choice items u).getD ""

/-! ## Requirement allocator: generate_hr_requirements -/

/-- One loop iteration of the allocator carries the sampled role, the
    random.random() draw feeding the level sampler, and the integer value of
    int(round(total / n_buckets + random.uniform(-1, 1))) for that
    iteration (the claims never depend on its exact value, only on its being
    some integer, so it is an oracle input). -/
structure Bucket where
  role : String
  levelDraw : ℚ
  rawAlloc : Int
deriving DecidableEq

/-- The per-iteration draws before the sampled role is attached. -/
structure HrDraw where
  levelDraw : ℚ
  rawAlloc : Int

/-- Python dict update reqs[key] = reqs.get(key, 0) + v on an insertion
    ordered association list. -/
def insertAdd : List (String × Int) → String → Int → List (String × Int)
  | [], k, v => [(k, v)]
  | p :: ps, k, v => if p.1 = k then (p.1, p.2 + v) :: ps else p :: insertAdd ps k v

/-- The seniority guard of generate_hr_requirements: architect and manager
    roles may not keep the two most junior levels. -/
def applyGuard (role level : String) : String :=
  if (role = "Solutions/Technical Architect" ∨ role = "Project Manager") ∧
     (level = "PAT" ∨ level = "PA") then "Associate" else level

/-- The staffing key built by the source: level and role joined by one
    space. -/
def keyOf (level role : String) : String := level ++ " " ++ role

/-- The allocation of one bucket: before the last bucket it is
    max(1, int(round(total / n_buckets + uniform(-1, 1)))) clamped above by
    remaining - (n_buckets - idx); the last bucket receives
    max(1, remaining). -/
def allocAmount (B idx : Nat) (rem : Int) (raw : Int) : Int :=
  if idx < B then min (max 1 raw) (rem - ((B : Int) - (idx : Int))) else max 1 rem

/-- The allocation loop of generate_hr_requirements.  B is n_buckets, idx
    counts from 1 as in the source enumerate(chosen_roles, 1); remaining is
    threaded exactly as in the source; on every iteration the level is drawn
    by the weighted sampler over LEVEL_WEIGHTS, the allocation is clamped,
    the guard rewrites the level, and the merged dict is updated. -/
def hrAlloc (B : Nat) : Nat → Int → List Bucket → List (String × Int) → List (String × Int)
  | _, _, [], reqs => reqs
  | idx, remaining, b :: rest, reqs =>
    hrAlloc B (idx + 1) (remaining - allocAmount B idx remaining b.rawAlloc) rest
      (insertAdd reqs
        (keyOf (applyGuard b.role (weightedChoiceD LEVEL_WEIGHTS b.levelDraw)) b.role)
        (allocAmount B idx remaining b.rawAlloc))

/-- candidate_roles = SERVICE_LINE_TO_ROLES.get(service_line, roles_levels["roles"]). -/
def candidate_roles (globalRoles : List String) (service_line : String) : List String :=
  (SERVICE_LINE_TO_ROLES.lookup service_line).getD globalRoles

/-- random.sample(pool, k): k distinct members of pool, modelled as
    selection of pool elements by oracle indices (membership in pool is the
    property everything downstream uses). -/
def pySample (pool : List String) (k : Nat) (idxs : List Nat) : List String :=
  (idxs.take k).filterMap (fun i => pool[i]?)

/-- The settings bundle read from shared/settings.yaml (external input). -/
structure Settings where
  n : Nat
  duration_min : Nat
  duration_max : Nat
  budget_min : Int
  budget_max : Int
  exp_min : Int
  exp_max : Int
  skills_max : Nat
  hr_min : Int
  hr_max : Int
  remote_mix_probability : ℚ
  priority_weights : List (String × ℚ)

/-- total = random.randint(settings min, settings max) of the headcount
    bounds, with the randint draw as oracle. -/
def hrTotal (s : Settings) (totalDraw : Nat) : Int :=
  s.hr_min + (totalDraw : Int) % (s.hr_max - s.hr_min + 1)

/-- n_buckets = randint(1, min(3, len(candidate_roles))) and
    chosen_roles = random.sample(candidate_roles, n_buckets), zipped with
    the per-iteration draws. -/
def hrBuckets (globalRoles : List String) (service_line : String)
    (nDraw : Nat) (roleIdxs : List Nat) (draws : List HrDraw) : List Bucket :=
  let cand := candidate_roles globalRoles service_line
  let nBuckets := 1 + nDraw % (min 3 cand.length)
  ((pySample cand nBuckets roleIdxs).zip draws).map (fun p => ⟨p.1, p.2.levelDraw, p.2.rawAlloc⟩)

/-- generate_hr_requirements(roles_levels, settings, service_line) with all
    of its internal random draws as oracle arguments. -/
def generate_hr_requirements (globalRoles : List String) (s : Settings) (service_line : String)
    (totalDraw nDraw : Nat) (roleIdxs : List Nat) (draws : List HrDraw) : List (String × Int) :=
  let buckets := hrBuckets globalRoles service_line nDraw roleIdxs draws
  hrAlloc buckets.length 1 (hrTotal s totalDraw) buckets []

/-- Sum of the headcount values of the returned mapping. -/
def sumValues (m : List (String × Int)) : Int := (m.map Prod.snd).sum

/-! ## Record generator: generate_job -/

/-- rand_date_range(months): start = today + randint(0, 60) days,
    end = start + int(30.4 * months) days.  today and the randint draw are
    oracle arguments; 30.4 = 152 / 5 exactly. -/
def rand_date_range (today : Int) (offDraw : Nat) (months : Nat) : Int × Int :=
  let start := today + ((offDraw % 61 : Nat) : Int)
  (start, start + ((152 * months / 5 : Nat) : Int))

/-- random.choice(l) with the draw as an oracle index. -/
def pyChoice (l : List String) (i : Nat) : String := l.getD (i % l.length) ""

/-- The per-element coin flips random.random() < 0.6 of the similar-project
    filter, as a boolean list zipped against the id pool. -/
def filterByCoins (existing : List String) (coins : List Bool) : List String :=
  ((existing.zip coins).filter Prod.snd).map Prod.fst

/-- The id pool the similar-projects sampler draws from: the coin-filtered
    prior ids, or all prior ids when the filter removed every one. -/
def similarPool (existing : List String) (coins : List Bool) : List String :=
  if (filterByCoins existing coins).isEmpty then existing else filterByCoins existing coins

/-- The similar-projects block of generate_job: filter prior ids by coin
    flips, fall back to the whole pool when the filter empties it, draw
    k = randint(0, 2), and sample k ids (or take a prefix when the pool is
    smaller than k, as the source does with pool[:k]). -/
def similarBlock (existing : List String) (coins : List Bool) (k : Nat) (idxs : List Nat) :
    List String :=
  if existing.isEmpty then []
  else
    if k ≤ (similarPool existing coins).length then pySample (similarPool existing coins) k idxs
    else (similarPool existing coins).take k

/-- list(dict.fromkeys(skills)): deduplication keeping first occurrences. -/
def dedupFirst (l : List String) : List String :=
  l.foldl (fun acc x => if x ∈ acc then acc else acc ++ [x]) []

/-- The skill block of generate_job: categories allowed for the service
    line (falling back to all categories), sample min(2, available)
    categories, then 1 to 3 skills per category clamped to the category
    size, deduplicate, truncate to the configured maximum. -/
def pickSkills (skills_by_cat : List (String × List String)) (service_line : String)
    (catIdxs : List Nat) (catCounts : List Nat) (skillIdxs : List (List Nat))
    (maxSkills : Nat) : List String :=
  let allowed := (SERVICE_LINE_TO_SKILL_CATS.lookup service_line).getD (skills_by_cat.map Prod.fst)
  let pickCats := pySample allowed (min 2 allowed.length) catIdxs
  let skills := (pickCats.zip (catCounts.zip skillIdxs)).foldl
    (fun acc p =>
      let catSkills := (skills_by_cat.lookup p.1).getD []
      acc ++ pySample catSkills (min (1 + p.2.1 % 3) catSkills.length) p.2.2) []
  (dedupFirst skills).take maxSkills

/-- Decimal digits of n, most significant first, via explicit fuel so the
    kernel can evaluate it. -/
def natDigitsAux : Nat → Nat → List Char → List Char
  | 0, _, acc => acc
  | fuel + 1, n, acc =>
    if n < 10 then Nat.digitChar n :: acc
    else natDigitsAux fuel (n / 10) (Nat.digitChar (n % 10) :: acc)

def natStr (n : Nat) : List Char := natDigitsAux (n + 1) n []

/-- Python format i:04d — decimal digits left padded with zeros to width
    four. -/
def pad4 (n : Nat) : String := ⟨List.replicate (4 - (natStr n).length) '0' ++ natStr n⟩

/-- job_id = "P" followed by the iteration index zero padded to width 4. -/
def job_id_of (i : Nat) : String := "P" ++ pad4 i

/-- Decode of a job id back to its number: fold the digits after the
    leading letter.  Used to prove ids are pairwise distinct. -/
def decDigits (a : Nat) (l : List Char) : Nat := l.foldl (fun a c => 10 * a + (c.toNat - 48)) a

def decodeId (s : String) : Nat := decDigits 0 (s.data.drop 1)

/-- The vocabulary bundle loaded from the shared JSON files (external
    input): skills.json, roles_levels.json, domains.json, locations.json.
    Only the key set of the level table is used by either program, so
    levels is the list of level names. -/
structure Vocab where
  skills_by_cat : List (String × List String)
  roles : List String
  levels : List String
  industry_verticals : List String
  service_lines : List String
  indiaLocs : List String
  globalLocs : List String
  virtualLocs : List String

/-- All random draws one call of generate_job makes, in oracle form. -/
structure GenOracle where
  today : Int
  domainIdx : Nat
  serviceIdx : Nat
  locationIdx : Nat
  remoteDraw : ℚ
  monthsDraw : Nat
  offDraw : Nat
  budgetDraw : Nat
  expDraw : Nat
  priorityIdx : Nat
  catIdxs : List Nat
  catCounts : List Nat
  skillIdxs : List (List Nat)
  totalDraw : Nat
  nDraw : Nat
  roleIdxs : List Nat
  hrDraws : List HrDraw
  simCoins : List Bool
  simK : Nat
  simIdxs : List Nat

/-- One generated job record.  Multi-valued fields are kept structured;
    the source joins them with a pipe only when writing the CSV, which is
    outside the engine modelled here. -/
structure Job where
  job_id : String
  project_name : String
  domain : String
  location : String
  start_date : Int
  end_date : Int
  duration_months : Nat
  budget : Int
  technologies : List String
  hr_requirements : List (String × Int)
  min_experience : Int
  priority : String
  similar_projects : List String
  remote_possible : Bool
deriving DecidableEq

/-- generate_job(i, settings, domains, locations, skills_by_cat,
    roles_levels, existing_jobs) with the random draws supplied by o. -/
def generate_job (i : Nat) (s : Settings) (voc : Vocab) (existing : List String)
    (o : GenOracle) : Job :=
  let job_id := job_id_of i
  let domain := pyChoice voc.industry_verticals o.domainIdx
  let service_line := pyChoice voc.service_lines o.serviceIdx
  let location := pyChoice (voc.indiaLocs ++ voc.globalLocs ++ voc.virtualLocs) o.locationIdx
  let remote_possible := (location = "Remote") || (o.remoteDraw < s.remote_mix_probability)
  let months := s.duration_min + o.monthsDraw % (s.duration_max - s.duration_min + 1)
  let dates := rand_date_range o.today o.offDraw months
  let budget := s.budget_min + (o.budgetDraw : Int) % (s.budget_max - s.budget_min + 1)
  let min_exp := s.exp_min + (o.expDraw : Int) % (s.exp_max - s.exp_min + 1)
  let priority := pyChoice (s.priority_weights.map Prod.fst) o.priorityIdx
  let technologies := pickSkills voc.skills_by_cat service_line o.catIdxs o.catCounts
    o.skillIdxs s.skills_max
  let hr_reqs := generate_hr_requirements voc.roles s service_line o.totalDraw o.nDraw
    o.roleIdxs o.hrDraws
  let similar := similarBlock existing o.simCoins (o.simK % 3) o.simIdxs
  { job_id := job_id
    project_name := service_line ++ " for " ++ domain
    domain := domain
    location := location
    start_date := dates.1
    end_date := dates.2
    duration_months := months
    budget := budget
    technologies := technologies
    hr_requirements := hr_reqs
    min_experience := min_exp
    priority := priority
    similar_projects := similar
    remote_possible := remote_possible }

/-! ## Dataset builder: the loop in main threading existing_ids forward -/

def buildAux (s : Settings) (voc : Vocab) : Nat → List GenOracle → List String → List Job
  | _, [], _ => []
  | i, o :: os, ids =>
    let j := generate_job i s voc ids o
    j :: buildAux s voc (i + 1) os (ids ++ [j.job_id])

/-- rows, existing_ids = [], []; for i in range(1, n + 1): generate, append
    the record, append its id.  One oracle per iteration. -/
def buildDataset (s : Settings) (voc : Vocab) (os : List GenOracle) : List Job :=
  buildAux s voc 1 os []

/-! ## Validator: src/src/validate_jobs.py -/

/-- One CSV row as the validator sees it.  Dates are the persisted ISO
    strings (pandas reads them back as strings, and the source compares
    them with the string order).  The staffing cell is the outcome of
    json.loads: ok with the key-value pairs in insertion order, or error
    with the exception text. -/
structure JobRow where
  job_id : String
  domain : String
  location : String
  start_date : String
  end_date : String
  technologies : String
  hr_requirements : Except String (List (String × Int))

/-- k.split(" ", 1) on the character list: split at the first space, if
    any. -/
def splitAux : List Char → Option (List Char × List Char)
  | [] => none
  | c :: cs =>
    if c = ' ' then some ([], cs)
    else (splitAux cs).map (fun p => (c :: p.1, p.2))

/-- k.split(" ", 1) produces two parts exactly when the key contains a
    space; none models the one-part (malformed) case. -/
def pySplit1 (k : String) : Option (String × String) :=
  (splitAux k.data).map (fun p => (⟨p.1⟩, ⟨p.2⟩))

/-- The per-key checks of validate_jobs: a key without a space is reported
    malformed and skipped (continue); otherwise the level and the role are
    checked independently against the vocabularies, each miss appending its
    own defect. -/
def checkKey (allLevels allRoles : List String) (k : String) : List String :=
  match pySplit1 k with
  | none => ["Malformed HR key " ++ k]
  | some (level, role) =>
    (if level ∈ allLevels then [] else ["Invalid level " ++ level ++ " in HR req"]) ++
    (if role ∈ allRoles then [] else ["Invalid role " ++ role ++ " in HR req"])

/-- str.split on a single separator character (used for the pipe joined
    technologies cell). -/
def splitSepAux (sep : Char) : List Char → List Char → List (List Char)
  | [], cur => [cur.reverse]
  | c :: cs, cur =>
    if c = sep then cur.reverse :: splitSepAux sep cs []
    else splitSepAux sep cs (c :: cur)

def pySplitAll (sep : Char) (s : String) : List String :=
  (splitSepAux sep s.data []).map (fun l => ⟨l⟩)

/-- validate_jobs: re-derive the vocabularies, then run every check on
    every row, accumulating (job_id, message) pairs.  A pure function of
    the dataset and the vocabulary bundle. -/
def validate_jobs (voc : Vocab) (rows : List JobRow) : List (String × String) :=
  let all_skills := (voc.skills_by_cat.map Prod.snd).flatten
  let all_locations := voc.indiaLocs ++ voc.globalLocs ++ voc.virtualLocs
  rows.flatMap (fun row =>
    (if row.start_date < row.end_date then [] else [(row.job_id, "Invalid dates")]) ++
    (if row.domain ∈ voc.industry_verticals then []
     else [(row.job_id, "Invalid domain " ++ row.domain)]) ++
    (if row.location ∈ all_locations then []
     else [(row.job_id, "Invalid location " ++ row.location)]) ++
    ((pySplitAll '|' row.technologies).flatMap (fun sk =>
      if sk ≠ "" ∧ sk ∉ all_skills then [(row.job_id, "Unknown skill " ++ sk)] else [])) ++
    (match row.hr_requirements with
     | .error e => [(row.job_id, "HR requirements not JSON: " ++ e)]
     | .ok hr => (hr.map Prod.fst).flatMap (fun k =>
        (checkKey voc.levels voc.roles k).map (fun m => (row.job_id, m)))))

/-! ## Lemmas on the weighted sampler -/

lemma wcScan_mem (k : String) :
    ∀ (items : List (String × ℚ)) (upto r : ℚ),
      wcScan items upto r = some k → k ∈ items.map Prod.fst := by
  intro items
  induction items with
  | nil => intro upto r h; simp [wcScan] at h
  | cons p rest ih =>
    intro upto r h
    obtain ⟨a, w⟩ := p
    simp only [wcScan] at h
    split at h
    · cases h; simp
    · exact List.mem_cons_of_mem _ (ih _ _ h)

lemma wcScan_some :
    ∀ (items : List (String × ℚ)) (upto r : ℚ),
      items ≠ [] → r ≤ upto + (items.map Prod.snd).sum →
      ∃ k, wcScan items upto r = some k := by
  intro items
  induction items with
  | nil => intro upto r h; exact absurd rfl h
  | cons p rest ih =>
    intro upto r _ hle
    obtain ⟨a, w⟩ := p
    simp only [wcScan]
    split
    · exact ⟨a, rfl⟩
    · rename_i hng
      cases rest with
      | nil =>
        exfalso
        simp only [List.map_cons, List.map_nil, List.sum_cons, List.sum_nil, add_zero] at hle
        exact hng (by linarith)
      | cons q rs =>
        apply ih _ _ (by simp)
        simp only [List.map_cons, List.sum_cons] at hle ⊢
        linarith

lemma wcScan_pos_weight (k : String) :
    ∀ (items : List (String × ℚ)) (upto r : ℚ),
      upto < r → wcScan items upto r = some k →
      ∃ w, (k, w) ∈ items ∧ 0 < w := by
  intro items
  induction items with
  | nil => intro upto r _ h; simp [wcScan] at h
  | cons p rest ih =>
    intro upto r hlt h
    obtain ⟨a, w⟩ := p
    simp only [wcScan] at h
    split at h
    · rename_i hge
      cases h
      exact ⟨w, by simp, by linarith⟩
    · rename_i hng
      push_neg at hng
      obtain ⟨w', hmem, hpos⟩ := ih (upto + w) r hng h
      exact ⟨w', List.mem_cons_of_mem _ hmem, hpos⟩

lemma weighted_choice_eq_scan (items : List (String × ℚ)) (u : ℚ) (k : String)
    (h : wcScan items 0 (u * (items.map Prod.snd).sum) = some k) :
    weighted_choice items u = some k := by
  unfold weighted_choice
  rw [h]

lemma weighted_choice_eq_fallback (items : List (String × ℚ)) (u : ℚ)
    (h : wcScan items 0 (u * (items.map Prod.snd).sum) = none) :
    weighted_choice items u = items.getLast?.map Prod.fst := by
  unfold weighted_choice
  rw [h]

lemma weighted_choice_mem (items : List (String × ℚ)) (u : ℚ) (k : String)
    (h : weighted_choice items u = some k) : k ∈ items.map Prod.fst := by
  rcases hscan : wcScan items 0 (u * (items.map Prod.snd).sum) with _ | k'
  · rw [weighted_choice_eq_fallback items u hscan] at h
    rcases hlast : items.getLast? with _ | p
    · rw [hlast] at h; simp at h
    · rw [hlast] at h
      simp only [Option.map_some'] at h
      cases h
      exact List.mem_map_of_mem _ (List.mem_of_mem_getLast? hlast)
  · have h' := weighted_choice_eq_scan items u k' hscan
    rw [h'] at h
    cases h
    exact wcScan_mem _ _ _ _ hscan

lemma weighted_choice_isSome (items : List (String × ℚ)) (u : ℚ) (h : items ≠ []) :
    ∃ k, weighted_choice items u = some k := by
  rcases hscan : wcScan items 0 (u * (items.map Prod.snd).sum) with _ | k'
  · rcases hlast : items.getLast? with _ | p
    · exact absurd (List.getLast?_eq_none_iff.mp hlast) h
    · exact ⟨p.1, by rw [weighted_choice_eq_fallback items u hscan, hlast]; rfl⟩
  · exact ⟨k', weighted_choice_eq_scan items u k' hscan⟩

lemma sum_pos_of_mem (items : List (String × ℚ))
    (hnn : ∀ p ∈ items, 0 ≤ p.2) (hp : ∃ p ∈ items, 0 < p.2) :
    0 < (items.map Prod.snd).sum := by
  induction items with
  | nil => simp at hp
  | cons q rest ih =>
    obtain ⟨p, hmem, hpos⟩ := hp
    simp only [List.map_cons, List.sum_cons]
    rcases List.mem_cons.mp hmem with h | h
    · have hrest : 0 ≤ (rest.map Prod.snd).sum :=
        List.sum_nonneg (by
          intro x hx
          obtain ⟨q', hq', rfl⟩ := List.mem_map.mp hx
          exact hnn q' (List.mem_cons_of_mem _ hq'))
      subst h
      linarith
    · have := ih (fun p hp => hnn p (List.mem_cons_of_mem _ hp)) ⟨p, h, hpos⟩
      have hq : 0 ≤ q.2 := hnn q (List.mem_cons_self _ _)
      linarith

/-! ## Claims about the weighted sampler -/

/-- C2, counterexample: on the nonempty mapping A to 0, B to 0 (all weights
    sum to zero) the sampler does not fail: the draw point is
    r = u * 0 = 0, the first scan test 0 + 0 >= 0 succeeds, and the first
    key is returned. -/
theorem weighted_choice_zero_sum_cex :
    weighted_choice [("A", (0 : ℚ)), ("B", 0)] (1 / 2) = some "A" := by
  norm_num [weighted_choice, wcScan]

/-- C2, amended: on an empty mapping the sampler fails (the items[-1]
    indexing raises, modelled as none); on a nonempty mapping whose
    nonnegative weights sum to zero it returns the FIRST key instead of
    failing.  Both cases are captured by: the result is the head of the
    mapping, if any. -/
theorem weighted_choice_zero_sum (items : List (String × ℚ)) (u : ℚ)
    (hnn : ∀ p ∈ items, 0 ≤ p.2) (hz : (items.map Prod.snd).sum = 0) :
    weighted_choice items u = items.head?.map Prod.fst := by
  cases items with
  | nil => simp [weighted_choice, wcScan]
  | cons p rest =>
    obtain ⟨a, w⟩ := p
    have hw : 0 ≤ w := hnn (a, w) (List.mem_cons_self _ _)
    have hscan : wcScan ((a, w) :: rest) 0
        (u * ((((a, w) :: rest).map Prod.snd)).sum) = some a := by
      rw [hz, mul_zero]
      simp only [wcScan]
      rw [if_pos (show (0 : ℚ) + w ≥ 0 by linarith)]
    rw [weighted_choice_eq_scan _ _ _ hscan]
    rfl

/-- Witness for the amended C2 at a concrete zero-sum mapping. -/
theorem weighted_choice_zero_sum_witness :
    weighted_choice [("A", (0 : ℚ))] 3 = some "A" := by
  have h := weighted_choice_zero_sum [("A", (0 : ℚ))] 3 (by simp) (by simp)
  simpa using h

/-- C3, counterexample: with weights A to 0 and B to 1 and the draw
    u = 0 (a possible value of random.random()), the draw point is 0, the
    first scan test 0 + 0 >= 0 succeeds, and the zero-weight key A is
    returned. -/
theorem weighted_choice_zero_weight_cex :
    weighted_choice [("A", (0 : ℚ)), ("B", 1)] 0 = some "A" ∧
      ("A", (0 : ℚ)) ∈ [("A", (0 : ℚ)), ("B", 1)] := by
  constructor
  · norm_num [weighted_choice, wcScan]
  · simp

/-- C3, amended: for a mapping with nonnegative weights containing a
    zero-weight key and a positive-weight key, every draw with
    0 < u < 1 returns some key of positive weight (so never a zero-weight
    key and never an error); only the boundary draw u = 0 can return a
    leading zero-weight key (see the counterexample). -/
theorem weighted_choice_no_zero_weight (items : List (String × ℚ)) (u : ℚ)
    (hnn : ∀ p ∈ items, 0 ≤ p.2) (hzero : ∃ p ∈ items, p.2 = 0)
    (hpos : ∃ p ∈ items, 0 < p.2) (hu0 : 0 < u) (hu1 : u < 1) :
    ∃ k w, weighted_choice items u = some k ∧ (k, w) ∈ items ∧ 0 < w := by
  have hsum : 0 < (items.map Prod.snd).sum := sum_pos_of_mem items hnn hpos
  have hne : items ≠ [] := by
    intro h; subst h; simp at hsum
  have hr0 : 0 < u * (items.map Prod.snd).sum := mul_pos hu0 hsum
  have hrlt : u * (items.map Prod.snd).sum < (items.map Prod.snd).sum := by
    calc u * (items.map Prod.snd).sum < 1 * (items.map Prod.snd).sum :=
          mul_lt_mul_of_pos_right hu1 hsum
      _ = (items.map Prod.snd).sum := one_mul _
  obtain ⟨k, hk⟩ := wcScan_some items 0 (u * (items.map Prod.snd).sum) hne (by linarith)
  obtain ⟨w, hmem, hw⟩ := wcScan_pos_weight k items 0 _ hr0 hk
  exact ⟨k, w, weighted_choice_eq_scan items u k hk, hmem, hw⟩

/-- Witness for the amended C3 at the concrete mapping from the spec
    example. -/
theorem weighted_choice_no_zero_weight_witness :
    ∃ k w, weighted_choice [("A", (0 : ℚ)), ("B", 1)] (1 / 2) = some k ∧
      (k, w) ∈ [("A", (0 : ℚ)), ("B", 1)] ∧ 0 < w :=
  weighted_choice_no_zero_weight [("A", (0 : ℚ)), ("B", 1)] (1 / 2)
    (by norm_num) ⟨("A", 0), by norm_num⟩ ⟨("B", 1), by norm_num⟩
    (by norm_num) (by norm_num)

/-- C10: on any nonempty mapping with nonnegative weights, for any draw,
    the sampler returns some key of the mapping (it never raises); and
    whenever the cumulative scan finishes without meeting the draw point,
    the returned key is the trailing fallback items[-1]. -/
theorem weighted_choice_total (items : List (String × ℚ)) (u : ℚ)
    (hne : items ≠ []) (_hnn : ∀ p ∈ items, 0 ≤ p.2) :
    (∃ k, weighted_choice items u = some k ∧ k ∈ items.map Prod.fst) ∧
    (wcScan items 0 (u * (items.map Prod.snd).sum) = none →
      weighted_choice items u = some ((items.getLast hne).1)) := by
  constructor
  · obtain ⟨k, hk⟩ := weighted_choice_isSome items u hne
    exact ⟨k, hk, weighted_choice_mem items u k hk⟩
  · intro hscan
    rw [weighted_choice_eq_fallback items u hscan, List.getLast?_eq_getLast _ hne]
    rfl

/-- Witness for C10 at a concrete mapping and a draw that lands beyond the
    total weight, exercising the trailing fallback. -/
theorem weighted_choice_total_witness :
    ∃ k, weighted_choice [("A", (1 : ℚ))] 0 = some k ∧
      k ∈ [("A", (1 : ℚ))].map Prod.fst :=
  (weighted_choice_total [("A", (1 : ℚ))] 0 (by simp) (by norm_num)).1

/-! ## Lemmas on the requirement allocator -/

lemma insertAdd_sum (m : List (String × Int)) (k : String) (v : Int) :
    sumValues (insertAdd m k v) = sumValues m + v := by
  induction m with
  | nil => simp [insertAdd, sumValues]
  | cons p rest ih =>
    simp only [insertAdd]
    split
    · simp only [sumValues, List.map_cons, List.sum_cons]
      ring
    · simp only [sumValues, List.map_cons, List.sum_cons] at ih ⊢
      rw [ih]
      ring

lemma insertAdd_pos (m : List (String × Int)) (k : String) (v : Int)
    (hv : 0 < v) (hm : ∀ p ∈ m, 0 < p.2) :
    ∀ p ∈ insertAdd m k v, 0 < p.2 := by
  induction m with
  | nil =>
    intro p hp
    simp only [insertAdd, List.mem_singleton] at hp
    subst hp
    exact hv
  | cons q rest ih =>
    intro p hp
    simp only [insertAdd] at hp
    split at hp
    · rcases List.mem_cons.mp hp with h | h
      · subst h
        have := hm q (List.mem_cons_self _ _)
        simp only
        linarith
      · exact hm p (List.mem_cons_of_mem _ h)
    · rcases List.mem_cons.mp hp with h | h
      · subst h
        exact hm p (List.mem_cons_self _ _)
      · exact ih (fun p hp => hm p (List.mem_cons_of_mem _ hp)) p h

lemma insertAdd_keys (m : List (String × Int)) (k : String) (v : Int) (x : String)
    (hx : x ∈ (insertAdd m k v).map Prod.fst) : x ∈ m.map Prod.fst ∨ x = k := by
  induction m with
  | nil =>
    simp only [insertAdd, List.map_cons, List.map_nil, List.mem_singleton] at hx
    exact Or.inr hx
  | cons q rest ih =>
    simp only [insertAdd] at hx
    split at hx
    · rename_i hq
      simp only [List.map_cons, List.mem_cons] at hx ⊢
      rcases hx with h | h
      · exact Or.inl (Or.inl h)
      · exact Or.inl (Or.inr h)
    · simp only [List.map_cons, List.mem_cons] at hx ⊢
      rcases hx with h | h
      · exact Or.inl (Or.inl h)
      · rcases ih h with h' | h'
        · exact Or.inl (Or.inr h')
        · exact Or.inr h'

lemma hrAlloc_sum :
    ∀ (bs : List Bucket) (B idx : Nat) (rem : Int) (acc : List (String × Int)),
      bs ≠ [] → idx + bs.length = B + 1 → (bs.length = 1 → 1 ≤ rem) →
      sumValues (hrAlloc B idx rem bs acc) = sumValues acc + rem := by
  intro bs
  induction bs with
  | nil => intro B idx rem acc hne; exact absurd rfl hne
  | cons b rest ih =>
    intro B idx rem acc _ hlen hone
    rcases eq_or_ne rest [] with hrest | hrest
    · subst hrest
      have hidx : ¬ idx < B := by simp at hlen; omega
      simp only [hrAlloc, allocAmount, if_neg hidx]
      rw [insertAdd_sum]
      have hrem : 1 ≤ rem := hone (by simp)
      have hmax : max 1 rem = rem := by omega
      rw [hmax]
    · have hpos : 0 < rest.length := List.length_pos.mpr hrest
      have hidx : idx < B := by simp at hlen; omega
      have hBi : (idx : Int) < (B : Int) := by exact_mod_cast hidx
      have halloc_le : allocAmount B idx rem b.rawAlloc ≤ rem - ((B : Int) - (idx : Int)) := by
        simp only [allocAmount, if_pos hidx]
        exact min_le_right _ _
      have hone' : rest.length = 1 → 1 ≤ rem - allocAmount B idx rem b.rawAlloc := by
        intro _
        omega
      simp only [hrAlloc]
      rw [ih B (idx + 1) _ _ hrest (by simp at hlen ⊢; omega) hone', insertAdd_sum]
      ring

lemma hrAlloc_pos :
    ∀ (bs : List Bucket) (B idx : Nat) (rem : Int) (acc : List (String × Int)),
      idx + bs.length = B + 1 → (B : Int) - (idx : Int) + 1 ≤ rem →
      (∀ p ∈ acc, 0 < p.2) →
      ∀ p ∈ hrAlloc B idx rem bs acc, 0 < p.2 := by
  intro bs
  induction bs with
  | nil => intro B idx rem acc _ _ hacc; simpa [hrAlloc] using hacc
  | cons b rest ih =>
    intro B idx rem acc hlen hrem hacc
    have hallge : 1 ≤ allocAmount B idx rem b.rawAlloc := by
      simp only [allocAmount]
      split
      · rename_i h
        have hBi : (idx : Int) < (B : Int) := by exact_mod_cast h
        exact le_min (le_max_left _ _) (by omega)
      · exact le_max_left _ _
    have hrem' : (B : Int) - ((idx + 1 : Nat) : Int) + 1 ≤ rem - allocAmount B idx rem b.rawAlloc := by
      by_cases h : idx < B
      · have hBi : (idx : Int) < (B : Int) := by exact_mod_cast h
        have := min_le_right (max 1 b.rawAlloc) (rem - ((B : Int) - (idx : Int)))
        simp only [allocAmount, if_pos h]
        push_cast
        omega
      · have hB : idx = B := by simp at hlen; omega
        subst hB
        simp only [allocAmount, if_neg h]
        have h1 := le_max_left (1 : Int) rem
        have h2 := le_max_right (1 : Int) rem
        push_cast
        omega
    simp only [hrAlloc]
    exact ih B (idx + 1) _ _ (by simp at hlen ⊢; omega) hrem'
      (insertAdd_pos acc _ _ hallge hacc)

/-! ## Claim C1: headcount conservation and positivity of the allocation -/

/-- C1, amended: whenever the sampled total headcount T is at least 1, the
    merged staffing mapping sums exactly to T (merging never drops
    headcount); and whenever T is at least the number of sampled buckets,
    every headcount value is additionally positive.  (The unamended claim
    asserts positivity for every sampled T; the counterexample below shows
    a zero value at T = 2 with three buckets, reachable under the settings
    of the spec scenario with headcount bounds 2 to 8.) -/
theorem generate_hr_requirements_sum_pos (gR : List String) (s : Settings) (sl : String)
    (tD nD : Nat) (rI : List Nat) (dr : List HrDraw)
    (hne : hrBuckets gR sl nD rI dr ≠ []) :
    (1 ≤ hrTotal s tD →
      sumValues (generate_hr_requirements gR s sl tD nD rI dr) = hrTotal s tD) ∧
    (((hrBuckets gR sl nD rI dr).length : Int) ≤ hrTotal s tD →
      ∀ p ∈ generate_hr_requirements gR s sl tD nD rI dr, 0 < p.2) := by
  constructor
  · intro hT
    unfold generate_hr_requirements
    rw [hrAlloc_sum (hrBuckets gR sl nD rI dr) ((hrBuckets gR sl nD rI dr).length) 1
      (hrTotal s tD) [] hne (by omega) (fun _ => hT)]
    simp [sumValues]
  · intro hT
    unfold generate_hr_requirements
    apply hrAlloc_pos (hrBuckets gR sl nD rI dr) ((hrBuckets gR sl nD rI dr).length) 1
      (hrTotal s tD) [] (by omega)
    · push_cast
      omega
    · intro p hp
      simp at hp

/-- The settings of the end-to-end scenario in the spec: headcount bounds
    2 to 8, duration 3 to 12, at most 4 skills. -/
def scenarioSettings : Settings :=
  { n := 10, duration_min := 3, duration_max := 12, budget_min := 10, budget_max := 50,
    exp_min := 1, exp_max := 10, skills_max := 4, hr_min := 2, hr_max := 8,
    remote_mix_probability := 3/10, priority_weights := [("High", 1)] }

lemma weightedChoiceD_eval_PAT : weightedChoiceD LEVEL_WEIGHTS (1/100) = "PAT" := by
  norm_num [weightedChoiceD, weighted_choice, wcScan, LEVEL_WEIGHTS, Option.getD]

lemma weightedChoiceD_eval_PA : weightedChoiceD LEVEL_WEIGHTS (1/10) = "PA" := by
  norm_num [weightedChoiceD, weighted_choice, wcScan, LEVEL_WEIGHTS, Option.getD]

lemma weightedChoiceD_eval_Associate : weightedChoiceD LEVEL_WEIGHTS (3/10) = "Associate" := by
  norm_num [weightedChoiceD, weighted_choice, wcScan, LEVEL_WEIGHTS, Option.getD]

/-- Witness for the amended C1: with sampled total 4 and three buckets the
    mapping sums to 4. -/
theorem generate_hr_requirements_sum_pos_witness :
    sumValues (generate_hr_requirements ["Data Engineer"] scenarioSettings
      "Data Engineering & Analytics" 2 2 [0, 1, 2]
      [⟨1/100, 1⟩, ⟨1/10, 1⟩, ⟨3/10, 1⟩]) = 4 := by
  have h := (generate_hr_requirements_sum_pos ["Data Engineer"] scenarioSettings
    "Data Engineering & Analytics" 2 2 [0, 1, 2]
    [⟨1/100, 1⟩, ⟨1/10, 1⟩, ⟨3/10, 1⟩]
    (by decide)).1 (by decide)
  rw [h]
  decide

/-- C1, counterexample: under the scenario settings (headcount bounds 2 to
    8) a sampled total of T = 2 with three sampled buckets produces the
    allocation 0, 1, 1: the first clamped allocation is
    min(max(1, raw), 2 - 2) = 0, so the returned mapping contains a
    non-positive headcount value even though its values still sum to T. -/
theorem generate_hr_requirements_pos_cex :
    ¬ (∀ p ∈ generate_hr_requirements ["Data Engineer"] scenarioSettings
        "Data Engineering & Analytics" 0 2 [0, 1, 2]
        [⟨1/100, 1⟩, ⟨1/10, 1⟩, ⟨3/10, 1⟩], 0 < p.2) := by
  intro hall
  have hmem : ("PAT Data Engineer", (0 : Int)) ∈ generate_hr_requirements ["Data Engineer"]
      scenarioSettings "Data Engineering & Analytics" 0 2 [0, 1, 2]
      [⟨1/100, 1⟩, ⟨1/10, 1⟩, ⟨3/10, 1⟩] := by
    show ("PAT Data Engineer", (0 : Int)) ∈ hrAlloc 3 1 (hrTotal scenarioSettings 0)
      [⟨"Data Engineer", 1/100, 1⟩, ⟨"Business Analyst", 1/10, 1⟩,
        ⟨"QA/Test Engineer", 3/10, 1⟩] []
    simp only [hrAlloc]
    rw [weightedChoiceD_eval_PAT, weightedChoiceD_eval_PA, weightedChoiceD_eval_Associate]
    decide
  exact absurd (hall _ hmem) (by decide)

/-! ## Claim C4: fallback to the global role set -/

lemma lookup_mem {β : Type} (l : List (String × β)) (k : String) (v : β)
    (h : l.lookup k = some v) : (k, v) ∈ l := by
  induction l with
  | nil => simp [List.lookup] at h
  | cons p rest ih =>
    rw [List.lookup] at h
    split at h
    · rename_i heq
      cases h
      have hk : k = p.1 := by simpa using heq
      rw [hk]
      exact List.mem_cons_self _ _
    · exact List.mem_cons_of_mem _ (ih h)

/-- C4: for a service line that is absent from the rule table, or one whose
    entry were empty (no entry of the hard-coded table is empty, as the
    proof shows), candidate_roles is the full global role set
    roles_levels["roles"]. -/
theorem candidate_roles_fallback (gR : List String) (sl : String)
    (h : SERVICE_LINE_TO_ROLES.lookup sl = none ∨
      SERVICE_LINE_TO_ROLES.lookup sl = some []) :
    candidate_roles gR sl = gR := by
  rcases h with h | h
  · unfold candidate_roles
    rw [h]
    rfl
  · exfalso
    have hmem := lookup_mem _ _ _ h
    simp [SERVICE_LINE_TO_ROLES] at hmem

/-- Witness for C4 at a concrete unknown service line. -/
theorem candidate_roles_fallback_witness :
    candidate_roles ["RoleX", "RoleY"] "Quantum Computing" = ["RoleX", "RoleY"] :=
  candidate_roles_fallback ["RoleX", "RoleY"] "Quantum Computing" (Or.inl (by decide))

/-! ## Claim C5: the seniority guard -/

def guardedRoles : List String := ["Solutions/Technical Architect", "Project Manager"]

def juniorLevels : List String := ["PAT", "PA"]

/-- The four forbidden staffing keys: a guarded role paired with one of the
    two most junior levels. -/
def badKeys : List String :=
  ["PAT Solutions/Technical Architect", "PA Solutions/Technical Architect",
   "PAT Project Manager", "PA Project Manager"]

lemma keyOf_data (lvl role : String) :
    (keyOf lvl role).data = (lvl.data ++ [' ']) ++ role.data := by
  unfold keyOf
  rw [String.data_append, String.data_append]

lemma keyOf_ne_of_mismatch (lvl role t : String) (i : Nat) (c : Char)
    (h1 : (lvl.data ++ [' '])[i]? = some c) (h2 : t.data[i]? ≠ some c) :
    keyOf lvl role ≠ t := by
  intro h
  obtain ⟨hlt, -⟩ := List.getElem?_eq_some.mp h1
  apply h2
  have hd := congrArg String.data h
  rw [keyOf_data] at hd
  rw [← hd, List.getElem?_append_left hlt, h1]

lemma keyOf_inj_role (lvl role r : String) (h : keyOf lvl role = keyOf lvl r) : role = r := by
  have hd := congrArg String.data h
  rw [keyOf_data, keyOf_data] at hd
  exact String.ext (List.append_cancel_left hd)

lemma key_safe (role lvl : String) (hl : lvl ∈ levelNames) :
    keyOf (applyGuard role lvl) role ∉ badKeys := by
  have hmem : lvl = "PAT" ∨ lvl = "PA" ∨ lvl = "Associate" ∨ lvl = "SrAssociate" ∨
      lvl = "Manager" ∨ lvl = "SrManager" ∨ lvl = "Arch/AD" ∨ lvl = "Director+" := by
    simpa [levelNames, LEVEL_WEIGHTS] using hl
  unfold applyGuard
  by_cases hg : (role = "Solutions/Technical Architect" ∨ role = "Project Manager") ∧
      (lvl = "PAT" ∨ lvl = "PA")
  · rw [if_pos hg]
    rcases hg.1 with hr | hr <;> subst hr <;> decide
  · rw [if_neg hg]
    rcases hmem with rfl | rfl | rfl | rfl | rfl | rfl | rfl | rfl
    · have hrole : ¬ (role = "Solutions/Technical Architect" ∨ role = "Project Manager") :=
        fun hr => hg ⟨hr, Or.inl rfl⟩
      push_neg at hrole
      intro hbad
      simp only [badKeys, List.mem_cons, List.not_mem_nil, or_false] at hbad
      rcases hbad with h | h | h | h
      · exact hrole.1 (keyOf_inj_role _ _ _ (h.trans (by decide)))
      · exact keyOf_ne_of_mismatch "PAT" role _ 2 'T' (by decide) (by decide) h
      · exact hrole.2 (keyOf_inj_role _ _ _ (h.trans (by decide)))
      · exact keyOf_ne_of_mismatch "PAT" role _ 2 'T' (by decide) (by decide) h
    · have hrole : ¬ (role = "Solutions/Technical Architect" ∨ role = "Project Manager") :=
        fun hr => hg ⟨hr, Or.inr rfl⟩
      push_neg at hrole
      intro hbad
      simp only [badKeys, List.mem_cons, List.not_mem_nil, or_false] at hbad
      rcases hbad with h | h | h | h
      · exact keyOf_ne_of_mismatch "PA" role _ 2 ' ' (by decide) (by decide) h
      · exact hrole.1 (keyOf_inj_role _ _ _ (h.trans (by decide)))
      · exact keyOf_ne_of_mismatch "PA" role _ 2 ' ' (by decide) (by decide) h
      · exact hrole.2 (keyOf_inj_role _ _ _ (h.trans (by decide)))
    all_goals {
      intro hbad
      simp only [badKeys, List.mem_cons, List.not_mem_nil, or_false] at hbad
      rcases hbad with h | h | h | h <;>
        first
          | exact keyOf_ne_of_mismatch _ role _ 0 'A' (by decide) (by decide) h
          | exact keyOf_ne_of_mismatch _ role _ 0 'S' (by decide) (by decide) h
          | exact keyOf_ne_of_mismatch _ role _ 0 'M' (by decide) (by decide) h
          | exact keyOf_ne_of_mismatch _ role _ 0 'D' (by decide) (by decide) h
    }

lemma weightedChoiceD_LEVEL_mem (u : ℚ) : weightedChoiceD LEVEL_WEIGHTS u ∈ levelNames := by
  obtain ⟨k, hk⟩ := weighted_choice_isSome LEVEL_WEIGHTS u (by simp [LEVEL_WEIGHTS])
  have hmem := weighted_choice_mem _ _ _ hk
  unfold weightedChoiceD
  rw [hk]
  exact hmem

lemma hrAlloc_keys_safe :
    ∀ (bs : List Bucket) (B idx : Nat) (rem : Int) (acc : List (String × Int)),
      (∀ k ∈ acc.map Prod.fst, k ∉ badKeys) →
      ∀ k ∈ (hrAlloc B idx rem bs acc).map Prod.fst, k ∉ badKeys := by
  intro bs
  induction bs with
  | nil => intro B idx rem acc hacc; simpa [hrAlloc] using hacc
  | cons b rest ih =>
    intro B idx rem acc hacc
    simp only [hrAlloc]
    apply ih
    intro k hk
    rcases insertAdd_keys _ _ _ _ hk with h | h
    · exact hacc k h
    · subst h
      exact key_safe b.role _ (weightedChoiceD_LEVEL_mem b.levelDraw)

/-- C5: no key of any returned staffing mapping pairs a guarded role with
    one of the two junior levels; and the guard is a deterministic rewrite
    of the level to Associate (no re-sampling). -/
theorem hr_seniority_guard (gR : List String) (s : Settings) (sl : String)
    (tD nD : Nat) (rI : List Nat) (dr : List HrDraw) :
    (∀ k ∈ (generate_hr_requirements gR s sl tD nD rI dr).map Prod.fst, k ∉ badKeys) ∧
    (∀ role ∈ guardedRoles, ∀ lvl ∈ juniorLevels, applyGuard role lvl = "Associate") := by
  constructor
  · unfold generate_hr_requirements
    exact hrAlloc_keys_safe _ _ _ _ _ (by simp)
  · decide

/-- Witness for C5: a concrete run in which the guard promoted a sampled
    PAT level on the guarded role Project Manager to Associate. -/
theorem hr_seniority_guard_witness :
    "Associate Project Manager" ∉ badKeys := by
  apply (hr_seniority_guard ["Data Engineer"] scenarioSettings
    "Consulting & Business Analysis" 0 0 [1] [⟨1/100, 1⟩]).1
  show "Associate Project Manager" ∈
    (hrAlloc 1 1 (hrTotal scenarioSettings 0) [⟨"Project Manager", 1/100, 1⟩] []).map Prod.fst
  simp only [hrAlloc]
  rw [weightedChoiceD_eval_PAT]
  decide

/-! ## Claim C6: similar projects reference only prior records -/

lemma pySample_subset (pool : List String) (k : Nat) (idxs : List Nat) :
    ∀ x ∈ pySample pool k idxs, x ∈ pool := by
  intro x hx
  obtain ⟨i, -, hi⟩ := List.mem_filterMap.mp hx
  exact List.getElem?_mem hi

lemma filterByCoins_subset (existing : List String) (coins : List Bool) :
    ∀ x ∈ filterByCoins existing coins, x ∈ existing := by
  intro x hx
  obtain ⟨p, hmem, rfl⟩ := List.mem_map.mp hx
  exact (List.of_mem_zip (List.mem_of_mem_filter hmem)).1

lemma similarPool_subset (existing : List String) (coins : List Bool) :
    ∀ x ∈ similarPool existing coins, x ∈ existing := by
  intro x hx
  unfold similarPool at hx
  split at hx
  · exact hx
  · exact filterByCoins_subset existing coins x hx

lemma similarBlock_subset (existing : List String) (coins : List Bool) (k : Nat)
    (idxs : List Nat) : ∀ x ∈ similarBlock existing coins k idxs, x ∈ existing := by
  intro x hx
  unfold similarBlock at hx
  split at hx
  · simp at hx
  · split at hx
    · exact similarPool_subset existing coins x (pySample_subset _ _ _ x hx)
    · exact similarPool_subset existing coins x (List.take_subset _ _ hx)

lemma generate_job_similar (i : Nat) (s : Settings) (voc : Vocab) (existing : List String)
    (o : GenOracle) : (generate_job i s voc existing o).similar_projects =
      similarBlock existing o.simCoins (o.simK % 3) o.simIdxs := rfl

lemma generate_job_id (i : Nat) (s : Settings) (voc : Vocab) (existing : List String)
    (o : GenOracle) : (generate_job i s voc existing o).job_id = job_id_of i := rfl

lemma buildAux_get_similar :
    ∀ (os : List GenOracle) (s : Settings) (voc : Vocab) (i : Nat) (ids : List String)
      (k : Nat) (j : Job), (buildAux s voc i os ids)[k]? = some j →
      ∀ x ∈ j.similar_projects,
        x ∈ ids ++ ((buildAux s voc i os ids).take k).map Job.job_id := by
  intro os
  induction os with
  | nil => intro s voc i ids k j h; simp [buildAux] at h
  | cons o rest ih =>
    intro s voc i ids k j h
    cases k with
    | zero =>
      simp only [buildAux, List.getElem?_cons_zero, Option.some.injEq] at h
      subst h
      intro x hx
      rw [generate_job_similar] at hx
      have := similarBlock_subset _ _ _ _ x hx
      simpa using this
    | succ k' =>
      simp only [buildAux, List.getElem?_cons_succ] at h
      intro x hx
      have hmem := ih s voc (i + 1) (ids ++ [(generate_job i s voc ids o).job_id]) k' j h x hx
      simp only [buildAux, List.take_succ_cons, List.map_cons]
      simp only [List.append_assoc] at hmem
      simpa using hmem

lemma buildAux_ids :
    ∀ (os : List GenOracle) (s : Settings) (voc : Vocab) (i : Nat) (ids : List String),
      (buildAux s voc i os ids).map Job.job_id = (List.range' i os.length).map job_id_of := by
  intro os
  induction os with
  | nil => intro s voc i ids; simp [buildAux]
  | cons o rest ih =>
    intro s voc i ids
    rw [List.length_cons, List.range'_succ]
    simp only [buildAux, List.map_cons, generate_job_id]
    rw [ih]

/-! Decoding the zero-padded decimal id back to its number, to show the ids
    are pairwise distinct. -/

lemma natDigitsAux_acc :
    ∀ (fuel n : Nat) (acc : List Char),
      natDigitsAux fuel n acc = natDigitsAux fuel n [] ++ acc := by
  intro fuel
  induction fuel with
  | zero => intro n acc; simp [natDigitsAux]
  | succ f ih =>
    intro n acc
    simp only [natDigitsAux]
    split
    · rfl
    · rw [ih (n / 10) [Nat.digitChar (n % 10)],
        ih (n / 10) (Nat.digitChar (n % 10) :: acc)]
      simp

lemma decDigits_append (a : Nat) (l1 l2 : List Char) :
    decDigits a (l1 ++ l2) = decDigits (decDigits a l1) l2 :=
  List.foldl_append _ _ _ _

lemma digitChar_toNat (d : Nat) (h : d < 10) : (Nat.digitChar d).toNat - 48 = d := by
  interval_cases d <;> rfl

lemma decDigits_natDigitsAux :
    ∀ (fuel n : Nat), n < 10 ^ fuel → ∀ a : Nat,
      decDigits a (natDigitsAux fuel n []) =
        a * 10 ^ (natDigitsAux fuel n []).length + n := by
  intro fuel
  induction fuel with
  | zero =>
    intro n h a
    have hn : n = 0 := by simpa using h
    subst hn
    simp [natDigitsAux, decDigits]
  | succ f ih =>
    intro n h a
    by_cases hn : n < 10
    · simp only [natDigitsAux, if_pos hn]
      simp only [decDigits, List.foldl_cons, List.foldl_nil, List.length_singleton,
        pow_one]
      rw [digitChar_toNat n hn]
      ring
    · simp only [natDigitsAux, if_neg hn]
      rw [natDigitsAux_acc f (n / 10) [Nat.digitChar (n % 10)]]
      have hdiv : n / 10 < 10 ^ f := by
        apply Nat.div_lt_of_lt_mul
        calc n < 10 ^ (f + 1) := h
          _ = 10 * 10 ^ f := by ring
      rw [decDigits_append, ih (n / 10) hdiv a]
      simp only [decDigits, List.foldl_cons, List.foldl_nil, List.length_append,
        List.length_singleton]
      rw [digitChar_toNat (n % 10) (Nat.mod_lt _ (by norm_num))]
      rw [pow_succ]
      set K := a * 10 ^ (natDigitsAux f (n / 10) []).length with hK
      have hmod := Nat.div_add_mod n 10
      set L := (natDigitsAux f (n / 10) []).length with hL
      ring_nf
      omega

lemma decDigits_replicate_zero (m : Nat) (l : List Char) :
    decDigits 0 (List.replicate m '0' ++ l) = decDigits 0 l := by
  induction m with
  | zero => simp
  | succ m ih =>
    simp only [List.replicate_succ, List.cons_append]
    simp only [decDigits, List.foldl_cons] at ih ⊢
    convert ih using 2

lemma decodeId_job_id (i : Nat) : decodeId (job_id_of i) = i := by
  unfold decodeId job_id_of pad4
  have hdata : ("P" ++ (⟨List.replicate (4 - (natStr i).length) '0' ++ natStr i⟩ : String)).data
      = 'P' :: (List.replicate (4 - (natStr i).length) '0' ++ natStr i) := by
    rw [String.data_append]
    rfl
  rw [hdata]
  have hdrop : ('P' :: (List.replicate (4 - (natStr i).length) '0' ++ natStr i)).drop 1
      = List.replicate (4 - (natStr i).length) '0' ++ natStr i := rfl
  rw [hdrop, decDigits_replicate_zero]
  have hlt : i < 10 ^ (i + 1) :=
    lt_of_lt_of_le (Nat.lt_pow_self (by norm_num) i)
      (Nat.pow_le_pow_right (by norm_num) (Nat.le_succ i))
  have h := decDigits_natDigitsAux (i + 1) i hlt 0
  simpa [natStr] using h

lemma job_id_of_injective : Function.Injective job_id_of := by
  intro a b h
  have := congrArg decodeId h
  rwa [decodeId_job_id, decodeId_job_id] at this

/-- C6: in every built dataset, the similar projects of the record at
    position k (0 based) are drawn from the ids of the records at positions
    strictly before k; the ids are pairwise distinct (so a record never
    references itself or a later record); and the first record has no
    similar projects. -/
theorem dataset_similar_prior (s : Settings) (voc : Vocab) (os : List GenOracle) :
    (∀ (k : Nat) (j : Job), (buildDataset s voc os)[k]? = some j →
      ∀ x ∈ j.similar_projects, x ∈ ((buildDataset s voc os).take k).map Job.job_id) ∧
    ((buildDataset s voc os).map Job.job_id).Nodup ∧
    (∀ j : Job, (buildDataset s voc os)[0]? = some j → j.similar_projects = []) := by
  refine ⟨?_, ?_, ?_⟩
  · intro k j h x hx
    have := buildAux_get_similar os s voc 1 [] k j h x hx
    simpa using this
  · rw [buildDataset, buildAux_ids]
    exact (List.nodup_range' _ _).map job_id_of_injective
  · intro j h
    cases os with
    | nil => simp [buildDataset, buildAux] at h
    | cons o rest =>
      simp only [buildDataset, buildAux, List.getElem?_cons_zero, Option.some.injEq] at h
      subst h
      rfl

/-- A minimal vocabulary bundle for concrete runs. -/
def demoVocab : Vocab :=
  { skills_by_cat := [("Programming", ["Python"])]
    roles := ["Data Engineer"]
    levels := ["PAT", "PA", "Associate", "SrAssociate", "Manager", "SrManager",
      "Arch/AD", "Director+"]
    industry_verticals := ["Banking"]
    service_lines := ["AI/ML & MLOps"]
    indiaLocs := ["Mumbai"]
    globalLocs := []
    virtualLocs := ["Remote"] }

/-- A concrete oracle for one generate_job call. -/
def demoOracle : GenOracle :=
  { today := 20000, domainIdx := 0, serviceIdx := 0, locationIdx := 0,
    remoteDraw := 1/4, monthsDraw := 0, offDraw := 0, budgetDraw := 0, expDraw := 0,
    priorityIdx := 0, catIdxs := [0], catCounts := [0], skillIdxs := [[0]],
    totalDraw := 0, nDraw := 0, roleIdxs := [0], hrDraws := [⟨1/100, 1⟩],
    simCoins := [true], simK := 0, simIdxs := [0] }

/-- Witness for C6: the first record of a concrete one-record dataset has
    empty similar projects. -/
theorem dataset_similar_prior_witness :
    ((buildDataset scenarioSettings demoVocab [demoOracle])[0]?).map Job.similar_projects =
      some [] := by
  cases hj : (buildDataset scenarioSettings demoVocab [demoOracle])[0]? with
  | none => exact absurd hj (by decide)
  | some j =>
    simp only [Option.map_some']
    exact congrArg some ((dataset_similar_prior scenarioSettings demoVocab [demoOracle]).2.2 j hj)

/-! ## Claim C7: dates -/

/-- C7: start date is today plus 0 to 60 days, the end date is the start
    plus int(30.4 * duration_months) = 152 * months / 5 days, the duration
    lies within the configured bounds, and start < end strictly — under
    duration bounds whose minimum is at least one month. -/
theorem generate_job_dates (i : Nat) (s : Settings) (voc : Vocab) (existing : List String)
    (o : GenOracle) (h1 : 1 ≤ s.duration_min) (h2 : s.duration_min ≤ s.duration_max) :
    (generate_job i s voc existing o).start_date = o.today + ((o.offDraw % 61 : Nat) : Int) ∧
    o.today ≤ (generate_job i s voc existing o).start_date ∧
    (generate_job i s voc existing o).start_date ≤ o.today + 60 ∧
    s.duration_min ≤ (generate_job i s voc existing o).duration_months ∧
    (generate_job i s voc existing o).duration_months ≤ s.duration_max ∧
    (generate_job i s voc existing o).end_date =
      (generate_job i s voc existing o).start_date +
        ((152 * (generate_job i s voc existing o).duration_months / 5 : Nat) : Int) ∧
    (generate_job i s voc existing o).start_date < (generate_job i s voc existing o).end_date := by
  have hs : (generate_job i s voc existing o).start_date
      = o.today + ((o.offDraw % 61 : Nat) : Int) := rfl
  have hm : (generate_job i s voc existing o).duration_months
      = s.duration_min + o.monthsDraw % (s.duration_max - s.duration_min + 1) := rfl
  have he : (generate_job i s voc existing o).end_date
      = (generate_job i s voc existing o).start_date +
        ((152 * (generate_job i s voc existing o).duration_months / 5 : Nat) : Int) := rfl
  refine ⟨hs, ?_, ?_, ?_, ?_, he, ?_⟩
  · rw [hs]; omega
  · rw [hs]
    have : o.offDraw % 61 < 61 := Nat.mod_lt _ (by norm_num)
    omega
  · rw [hm]; omega
  · rw [hm]
    have : o.monthsDraw % (s.duration_max - s.duration_min + 1)
        ≤ s.duration_max - s.duration_min := by
      have := Nat.mod_lt o.monthsDraw
        (show 0 < s.duration_max - s.duration_min + 1 by omega)
      omega
    omega
  · rw [he, hm]
    have hmo : 1 ≤ s.duration_min + o.monthsDraw % (s.duration_max - s.duration_min + 1) := by
      omega
    have : 30 ≤ 152 * (s.duration_min + o.monthsDraw % (s.duration_max - s.duration_min + 1)) / 5 := by
      omega
    omega

/-- Witness for C7 at the demo oracle and the scenario settings. -/
theorem generate_job_dates_witness :
    (generate_job 1 scenarioSettings demoVocab [] demoOracle).start_date <
      (generate_job 1 scenarioSettings demoVocab [] demoOracle).end_date :=
  (generate_job_dates 1 scenarioSettings demoVocab [] demoOracle
    (by decide) (by decide)).2.2.2.2.2.2

/-! ## Claim C8: per-key checks of the validator -/

lemma splitAux_none_iff : ∀ l : List Char, splitAux l = none ↔ ' ' ∉ l := by
  intro l
  induction l with
  | nil => simp [splitAux]
  | cons c cs ih =>
    simp only [splitAux]
    by_cases hc : c = ' '
    · subst hc
      simp
    · rw [if_neg hc]
      rw [Option.map_eq_none']
      rw [ih]
      simp only [List.mem_cons]
      constructor
      · intro h hor
        rcases hor with h' | h'
        · exact hc h'.symm
        · exact h h'
      · intro h h'
        exact h (Or.inr h')

lemma pySplit1_none_iff (k : String) : pySplit1 k = none ↔ ' ' ∉ k.data := by
  unfold pySplit1
  rw [Option.map_eq_none']
  exact splitAux_none_iff k.data

/-- C8: a key without a space (one that does not split into two tokens)
    yields exactly the one malformed-key defect, and no level or role
    defect; a key that splits into level and role is checked for level
    membership and role membership independently, so a key failing both
    yields both defects in the same run. -/
theorem checkKey_spec (levels roles : List String) (k : String) :
    (pySplit1 k = none ↔ ' ' ∉ k.data) ∧
    (' ' ∉ k.data → checkKey levels roles k = ["Malformed HR key " ++ k]) ∧
    (∀ l r, pySplit1 k = some (l, r) →
      checkKey levels roles k =
        (if l ∈ levels then [] else ["Invalid level " ++ l ++ " in HR req"]) ++
        (if r ∈ roles then [] else ["Invalid role " ++ r ++ " in HR req"])) := by
  refine ⟨pySplit1_none_iff k, ?_, ?_⟩
  · intro h
    unfold checkKey
    rw [(pySplit1_none_iff k).mpr h]
  · intro l r h
    unfold checkKey
    rw [h]

/-- Witness for C8: a space-free key is reported malformed only; a key
    failing both vocabularies is reported for both defects. -/
theorem checkKey_spec_witness :
    checkKey ["PAT"] ["Data Engineer"] "NoSpaceKey" = ["Malformed HR key NoSpaceKey"] :=
  (checkKey_spec ["PAT"] ["Data Engineer"] "NoSpaceKey").2.1 (by decide)

/-! ## Claim C9: determinism of the validator -/

/-- C9: the validator is a pure function of the dataset and the vocabulary
    bundle: two runs on equal inputs yield equal defect lists. -/
theorem validate_jobs_deterministic (voc voc' : Vocab) (rows rows' : List JobRow)
    (h1 : voc = voc') (h2 : rows = rows') :
    validate_jobs voc rows = validate_jobs voc' rows' := by
  rw [h1, h2]

/-- A concrete persisted row. -/
def demoRow : JobRow :=
  { job_id := "P0001", domain := "Banking", location := "Mumbai",
    start_date := "2026-01-01", end_date := "2026-06-01", technologies := "Python",
    hr_requirements := .ok [("Associate Data Engineer", 2)] }

/-- Witness for C9 on a concrete dataset. -/
theorem validate_jobs_deterministic_witness :
    validate_jobs demoVocab [demoRow] = validate_jobs demoVocab [demoRow] :=
  validate_jobs_deterministic demoVocab demoVocab [demoRow] [demoRow] rfl rfl

end TalentMatching
